import Mathlib

/-!
# bebo-capture-svc: `PinBase` and `TypeEnumerator` (pin_base_win.cc)

A shallow embedding of the DirectShow pin adapter of `pin_base_win.cc`.

* COM objects outside the file (the peer pin, the owning filter) are identified by
  their address, a natural number; a nullable pointer is an `Option`.
* Calls made on external COM objects are returned as a list of `ExtCall`, in call order.
* The subclass hooks `IsMediaTypeValid`, `GetValidMediaType` and `Receive`
  (declared in `sink_input_pin_win.h`) are parameters.
* `int`, `long` and `ULONG` are 32 bits wide on the target (Win32/Win64); signed
  values are kept as `Int` in `[-2^31, 2^31)` through `wrapInt32`.
* A `none` result of an operation stands for undefined behaviour of the C++ code
  (null dereference, read past the sample array, use after `delete this`) or for
  an exhausted iteration budget of a loop.
-/

/-! ## Machine integers and status codes -/

/-- Reduction of an integer to the signed 32-bit value with the same low 32 bits. -/
def wrapInt32 (x : Int) : Int := (x + 2147483648) % 4294967296 - 2147483648

/-- Conversion of a `LONG` to `ULONG`: the value modulo `2^32`. -/
def toULONG (x : Int) : Nat := (x % 4294967296).toNat

/-- An `HRESULT` is a signed 32-bit status code. -/
abbrev HRESULT := Int

/-- The value `S_OK` of winerror.h. -/
def S_OK : HRESULT := 0
/-- The value `S_FALSE` of winerror.h. -/
def S_FALSE : HRESULT := 1
/-- The value `E_NOTIMPL` (0x80004001) of winerror.h. -/
def E_NOTIMPL : HRESULT := wrapInt32 0x80004001
/-- The value `E_POINTER` (0x80004003) of winerror.h. -/
def E_POINTER : HRESULT := wrapInt32 0x80004003
/-- The value `E_FAIL` (0x80004005) of winerror.h. -/
def E_FAIL : HRESULT := wrapInt32 0x80004005
/-- The value `E_OUTOFMEMORY` (0x8007000E) of winerror.h. -/
def E_OUTOFMEMORY : HRESULT := wrapInt32 0x8007000E
/-- The value `VFW_E_NOT_CONNECTED` (0x80040209) of vfwmsgs.h. -/
def VFW_E_NOT_CONNECTED : HRESULT := wrapInt32 0x80040209
/-- The value `VFW_E_TYPE_NOT_ACCEPTED` (0x8004022A) of vfwmsgs.h. -/
def VFW_E_TYPE_NOT_ACCEPTED : HRESULT := wrapInt32 0x8004022A

/-- The winerror.h test `FAILED(hr)`: the severity bit is set. -/
def FAILED (hr : HRESULT) : Bool := decide (hr < 0)

/-- The winerror.h test `SUCCEEDED(hr)`: a success or benign status. -/
def SUCCEEDED (hr : HRESULT) : Bool := decide (0 ≤ hr)

/-- `InterlockedIncrement` on a `volatile long`: adds one with 32-bit wraparound
and yields the new value. -/
def InterlockedIncrement (x : Int) : Int := wrapInt32 (x + 1)

/-- `InterlockedDecrement` on a `volatile long`: subtracts one with 32-bit
wraparound and yields the new value. -/
def InterlockedDecrement (x : Int) : Int := wrapInt32 (x - 1)

/-! ## Data model -/

/-- The DirectShow format descriptor `AM_MEDIA_TYPE` (GUIDs as numbers, the format
block as its bytes). -/
structure AM_MEDIA_TYPE where
  majortype : Nat
  subtype : Nat
  bFixedSizeSamples : Bool
  bTemporalCompression : Bool
  lSampleSize : Nat
  formattype : Nat
  cbFormat : Nat
  pbFormat : List Nat
deriving DecidableEq, Repr

/-- The all-zero descriptor left by `memset(&current_media_type_, 0, ...)`. -/
def AM_MEDIA_TYPE.zero : AM_MEDIA_TYPE :=
  { majortype := 0, subtype := 0, bFixedSizeSamples := false, bTemporalCompression := false,
    lSampleSize := 0, formattype := 0, cbFormat := 0, pbFormat := [] }

/-- A call made on a COM object that lives outside `pin_base_win.cc`. -/
inductive ExtCall where
  | AddRef (p : Nat)
  | Release (p : Nat)
  | ReceiveConnection (p : Nat) (connector : Nat) (media_type : AM_MEDIA_TYPE)
deriving DecidableEq, Repr

/-- A heap object that is either still allocated or was destroyed by `delete this`. -/
inductive Lifetime (α : Type) where
  | alive (a : α)
  | deleted
deriving DecidableEq, Repr

/-- The fields of `PinBase`: `self` is the address of the pin itself (`this`). -/
structure PinBase where
  self : Nat
  owner_ : Option Nat
  ref_count_ : Int
  connected_pin_ : Option Nat
  current_media_type_ : AM_MEDIA_TYPE
deriving DecidableEq, Repr

/-- The fields of `TypeEnumerator`: `pin_` is the address of the enumerated pin. -/
structure TypeEnumerator where
  pin_ : Nat
  index_ : Int
  ref_count_ : Int
deriving DecidableEq, Repr

/-- Status, pin state afterwards and external calls made by a pin operation. -/
structure PinResult where
  hr : HRESULT
  pin : PinBase
  calls : List ExtCall
deriving DecidableEq, Repr

/-- Outcome of `ConnectedTo`: `out` is the value stored in `*pin`. -/
structure ConnectedToResult where
  hr : HRESULT
  out : Option Nat
  pin : PinBase
  calls : List ExtCall
deriving DecidableEq, Repr

/-- Outcome of `ConnectionMediaType`: `out` is the value stored in `*media_type`,
`none` when nothing is stored. -/
structure ConnectionMediaTypeResult where
  hr : HRESULT
  out : Option AM_MEDIA_TYPE
  pin : PinBase
deriving DecidableEq, Repr

/-- Outcome of `TypeEnumerator::Next`: `types` are the descriptors stored in
`types[0 .. types_fetched)`, `fetched` the value stored in `*fetched` (`none` when
nothing is stored), `enumerator` the enumerator afterwards. -/
structure NextResult where
  hr : HRESULT
  types : List AM_MEDIA_TYPE
  fetched : Option Nat
  enumerator : TypeEnumerator
deriving DecidableEq, Repr

/-- Outcome of `ReceiveMultiple`: `processed` is the final `*processed`, `state` the
subclass state afterwards, `calls` the `Receive` calls made, in order, each with the
sample passed and the status it returned. -/
structure ReceiveMultipleResult (σ Sample : Type) where
  hr : HRESULT
  processed : Int
  state : σ
  calls : List (Sample × HRESULT)

/-- Modelled from the spec: `ComPtr`, declared outside `src/`, holds the owned
reference to the connected peer, at most one at a time. `Attach(p)` adopts `p` without
`AddRef`; the reference held before, if any, is released. Yields the new held pointer
and the calls made. -/
def ComPtr.Attach (held : Option Nat) (p : Option Nat) : Option Nat × List ExtCall :=
  match held with
  | some q => (p, [ExtCall.Release q])
  | none => (p, [])

/-- Modelled from the spec: `ComPtr`, declared outside `src/`. `Reset()` releases the
held peer reference, if any, and leaves the pointer null. -/
def ComPtr.Reset (held : Option Nat) : Option Nat × List ExtCall :=
  match held with
  | some q => (none, [ExtCall.Release q])
  | none => (none, [])

/-! ## TypeEnumerator -/

/-- The constructor `TypeEnumerator(PinBase* pin)`. -/
def TypeEnumerator.new (pin : Nat) : TypeEnumerator :=
  { pin_ := pin, index_ := 0, ref_count_ := 1 }

/-- The method `TypeEnumerator::AddRef`. -/
def TypeEnumerator.AddRef (self : TypeEnumerator) : Nat × TypeEnumerator :=
  let r := InterlockedIncrement self.ref_count_
  (toULONG r, { self with ref_count_ := r })

/-- The method `TypeEnumerator::Release`: the enumerator is deleted when the
decremented count, read as `ULONG`, is zero. -/
def TypeEnumerator.Release (self : TypeEnumerator) : Nat × Lifetime TypeEnumerator :=
  let r := InterlockedDecrement self.ref_count_
  let ref := toULONG r
  if ref = 0 then (ref, Lifetime.deleted)
  else (ref, Lifetime.alive { self with ref_count_ := r })

/-- The exit of `Next` after its loop: stores `types_fetched` through `fetched` when
that pointer is not null, and reports `S_OK` exactly when the batch is full. -/
def TypeEnumerator.NextFinish (count : Nat) (fetchedPtr : Bool) (self : TypeEnumerator)
    (types : List AM_MEDIA_TYPE) : NextResult :=
  { hr := if types.length = count then S_OK else S_FALSE
    types := types
    fetched := if fetchedPtr then some types.length else none
    enumerator := self }

/-- The loop of `TypeEnumerator::Next`. `types` holds the descriptors stored so far
(`types_fetched` is its length), `nalloc` counts the `CoTaskMemAlloc` calls made so
far, `alloc k` tells whether the `k`-th such call succeeds. The first argument bounds
the number of iterations. `index_++` is evaluated on every query, successful or not,
and wraps at 32 bits. On allocation failure everything allocated by the call is freed,
nothing is stored through `fetched` and no descriptor is handed out. -/
def TypeEnumerator.NextLoop (GetValidMediaType : Int → Option AM_MEDIA_TYPE)
    (alloc : Nat → Bool) (count : Nat) (fetchedPtr : Bool) :
    Nat → TypeEnumerator → List AM_MEDIA_TYPE → Nat → Option NextResult
  | 0, _, _, _ => none
  | fuel + 1, self, types, nalloc =>
    if types.length < count then
      if alloc nalloc = false then
        some { hr := E_OUTOFMEMORY, types := [], fetched := none, enumerator := self }
      else if alloc (nalloc + 1) = false then
        some { hr := E_OUTOFMEMORY, types := [], fetched := none, enumerator := self }
      else
        let index := self.index_
        let self1 : TypeEnumerator := { self with index_ := wrapInt32 (self.index_ + 1) }
        match GetValidMediaType index with
        | some type =>
          TypeEnumerator.NextLoop GetValidMediaType alloc count fetchedPtr fuel self1
            (types ++ [type]) (nalloc + 2)
        | none => some (TypeEnumerator.NextFinish count fetchedPtr self1 types)
    else some (TypeEnumerator.NextFinish count fetchedPtr self types)

/-- The method `TypeEnumerator::Next(count, types, fetched)`; `count` is a `ULONG`,
`fetchedPtr` tells whether `fetched` is non-null. The loop runs at most `count + 1`
times. -/
def TypeEnumerator.Next (GetValidMediaType : Int → Option AM_MEDIA_TYPE)
    (alloc : Nat → Bool) (self : TypeEnumerator) (count : Nat) (fetchedPtr : Bool) :
    Option NextResult :=
  TypeEnumerator.NextLoop GetValidMediaType alloc count fetchedPtr (count + 1) self [] 0

/-- The method `TypeEnumerator::Reset`. -/
def TypeEnumerator.Reset (self : TypeEnumerator) : HRESULT × TypeEnumerator :=
  (S_OK, { self with index_ := 0 })

/-- Successive `Next` calls with the counts of a list, each with a non-null `fetched`:
yields what each call stored through `fetched`, in order, and the enumerator
afterwards. -/
def TypeEnumerator.NextSeq (GetValidMediaType : Int → Option AM_MEDIA_TYPE)
    (alloc : Nat → Bool) : TypeEnumerator → List Nat → Option (List (Option Nat) × TypeEnumerator)
  | self, [] => some ([], self)
  | self, count :: counts =>
    match TypeEnumerator.Next GetValidMediaType alloc self count true with
    | none => none
    | some r =>
      match TypeEnumerator.NextSeq GetValidMediaType alloc r.enumerator counts with
      | none => none
      | some (fs, e) => some (r.fetched :: fs, e)

/-! ## PinBase -/

/-- The constructor `PinBase(IBaseFilter* owner)` of the pin at address `self`. -/
def PinBase.new (self : Nat) (owner : Option Nat) : PinBase :=
  { self := self, owner_ := owner, ref_count_ := 1, connected_pin_ := none,
    current_media_type_ := AM_MEDIA_TYPE.zero }

/-- The method `PinBase::Connect`. `peer p connector mt` is the status the external
pin `p` returns from `ReceiveConnection(connector, mt)`; the peer does not call back
into this pin while it answers. -/
def PinBase.Connect (peer : Nat → Nat → AM_MEDIA_TYPE → HRESULT) (self : PinBase)
    (receive_pin : Option Nat) (media_type : Option AM_MEDIA_TYPE) : PinResult :=
  match receive_pin, media_type with
  | some rp, some mt =>
    let attached := ComPtr.Attach self.connected_pin_ (some rp)
    let hr := peer rp self.self mt
    { hr := hr
      pin := { self with current_media_type_ := mt, connected_pin_ := attached.1 }
      calls := [ExtCall.AddRef rp] ++ attached.2 ++ [ExtCall.ReceiveConnection rp self.self mt] }
  | _, _ => { hr := E_POINTER, pin := self, calls := [] }

/-- The method `PinBase::ReceiveConnection`. A null `media_type` that the predicate
accepts, or a null `connector`, is dereferenced. -/
def PinBase.ReceiveConnection (IsMediaTypeValid : Option AM_MEDIA_TYPE → Bool)
    (self : PinBase) (connector : Option Nat) (media_type : Option AM_MEDIA_TYPE) :
    Option PinResult :=
  if IsMediaTypeValid media_type = false then
    some { hr := VFW_E_TYPE_NOT_ACCEPTED, pin := self, calls := [] }
  else
    match media_type, connector with
    | some mt, some c =>
      let attached := ComPtr.Attach self.connected_pin_ (some c)
      some { hr := S_OK
             pin := { self with current_media_type_ := mt, connected_pin_ := attached.1 }
             calls := [ExtCall.AddRef c] ++ attached.2 }
    | _, _ => none

/-- The method `PinBase::Disconnect`. -/
def PinBase.Disconnect (self : PinBase) : PinResult :=
  match self.connected_pin_ with
  | none => { hr := S_FALSE, pin := self, calls := [] }
  | some _ =>
    let reset := ComPtr.Reset self.connected_pin_
    { hr := S_OK, pin := { self with connected_pin_ := reset.1 }, calls := reset.2 }

/-- The method `PinBase::ConnectedTo(pin)` with a non-null `pin`. -/
def PinBase.ConnectedTo (self : PinBase) : ConnectedToResult :=
  match self.connected_pin_ with
  | none => { hr := VFW_E_NOT_CONNECTED, out := none, pin := self, calls := [] }
  | some p => { hr := S_OK, out := some p, pin := self, calls := [ExtCall.AddRef p] }

/-- The method `PinBase::ConnectionMediaType(media_type)` with a non-null `media_type`. -/
def PinBase.ConnectionMediaType (self : PinBase) : ConnectionMediaTypeResult :=
  match self.connected_pin_ with
  | none => { hr := VFW_E_NOT_CONNECTED, out := none, pin := self }
  | some _ => { hr := S_OK, out := some self.current_media_type_, pin := self }

/-- The method `PinBase::QueryId(id)`; `id` is the address passed. -/
def PinBase.QueryId (self : PinBase) (_id : Option Nat) : PinResult :=
  { hr := E_OUTOFMEMORY, pin := self, calls := [] }

/-- The method `PinBase::QueryInternalConnections(pins, no_pins)`. -/
def PinBase.QueryInternalConnections (self : PinBase) (_pins : Option Nat)
    (_no_pins : Option Nat) : PinResult :=
  { hr := E_NOTIMPL, pin := self, calls := [] }

/-- The method `PinBase::NewSegment(start, stop, rate)`; `rate` is the bit pattern of
the `double` passed. -/
def PinBase.NewSegment (self : PinBase) (_start : Int) (_stop : Int) (_rate : Nat) :
    PinResult :=
  { hr := E_NOTIMPL, pin := self, calls := [] }

/-- The loop of `PinBase::ReceiveMultiple`. `Receive` is the subclass method acting on
the subclass state `σ`; `samples` is the array behind the `samples` pointer, a read
outside it yields `none`. `sample_count--` and `++(*processed)` wrap at 32 bits. The
first argument bounds the number of iterations. -/
def PinBase.ReceiveMultipleLoop {σ Sample : Type} (Receive : σ → Sample → HRESULT × σ)
    (samples : List Sample) :
    Nat → Int → Int → HRESULT → σ → List (Sample × HRESULT) →
      Option (ReceiveMultipleResult σ Sample)
  | 0, _, _, _, _, _ => none
  | fuel + 1, sample_count, processed, hr, s, calls =>
    if sample_count ≠ 0 then
      let sample_count1 := wrapInt32 (sample_count - 1)
      if processed < 0 then none
      else
        match samples[processed.toNat]? with
        | none => none
        | some sample =>
          let r := Receive s sample
          if r.1 ≠ S_OK then
            some { hr := r.1, processed := processed, state := r.2,
                   calls := calls ++ [(sample, r.1)] }
          else
            PinBase.ReceiveMultipleLoop Receive samples fuel sample_count1
              (wrapInt32 (processed + 1)) r.1 r.2 (calls ++ [(sample, r.1)])
    else some { hr := hr, processed := processed, state := s, calls := calls }

/-- The method `PinBase::ReceiveMultiple(samples, sample_count, processed)` with a
non-null `processed`. The loop runs at most `sample_count mod 2^32` times before its
condition fails. -/
def PinBase.ReceiveMultiple {σ Sample : Type} (Receive : σ → Sample → HRESULT × σ)
    (s : σ) (samples : List Sample) (sample_count : Int) :
    Option (ReceiveMultipleResult σ Sample) :=
  PinBase.ReceiveMultipleLoop Receive samples (toULONG sample_count + 1) sample_count 0 S_OK s []

/-- The method `PinBase::AddRef`. -/
def PinBase.AddRef (self : PinBase) : Nat × PinBase :=
  let r := InterlockedIncrement self.ref_count_
  (toULONG r, { self with ref_count_ := r })

/-- The method `PinBase::Release`: the pin is deleted when the decremented count, read
as `ULONG`, is zero. -/
def PinBase.Release (self : PinBase) : Nat × Lifetime PinBase :=
  let r := InterlockedDecrement self.ref_count_
  let ref := toULONG r
  if ref = 0 then (ref, Lifetime.deleted)
  else (ref, Lifetime.alive { self with ref_count_ := r })

/-! ## Sequences of reference-counting calls -/

/-- Runs `Receive` on each sample of a list in turn, threading the subclass state;
yields the statuses returned, in order, and the final state. -/
def replayReceive {σ Sample : Type} (Receive : σ → Sample → HRESULT × σ) :
    σ → List Sample → List HRESULT × σ
  | s, [] => ([], s)
  | s, x :: xs =>
    ((Receive s x).1 :: (replayReceive Receive (Receive s x).2 xs).1,
      (replayReceive Receive (Receive s x).2 xs).2)

/-- A source of formats for `GetValidMediaType` with exactly `n` formats: it succeeds
exactly at the indices `0 .. n-1`, with a descriptor that records the index. -/
def formatsUpTo (n : Nat) (index : Int) : Option AM_MEDIA_TYPE :=
  if 0 ≤ index ∧ index < (n : Int) then
    some { AM_MEDIA_TYPE.zero with lSampleSize := index.toNat }
  else none

/-- A `TypeEnumerator` whose `int index_` holds a 32-bit value. -/
def TypeEnumerator.WF (self : TypeEnumerator) : Prop :=
  -2147483648 ≤ self.index_ ∧ self.index_ < 2147483648

/-! ## Machine arithmetic -/

theorem wrapInt32_of_range (x : Int) (h1 : -2147483648 ≤ x) (h2 : x < 2147483648) :
    wrapInt32 x = x := by
  unfold wrapInt32; omega

theorem wrapInt32_range (x : Int) :
    -2147483648 ≤ wrapInt32 x ∧ wrapInt32 x < 2147483648 := by
  unfold wrapInt32; omega

theorem wrapInt32_add_left (x y : Int) : wrapInt32 (wrapInt32 x + y) = wrapInt32 (x + y) := by
  unfold wrapInt32; omega

/-- C2: `ReceiveConnection` with a format the subclass predicate rejects returns
`VFW_E_TYPE_NOT_ACCEPTED`, whatever the pin state and the initiator; the connected peer
and the stored media type (the whole pin state) are as before, and no call, hence no
`AddRef`, is made on the initiator. -/
theorem C2_ReceiveConnection_rejected (IsMediaTypeValid : Option AM_MEDIA_TYPE → Bool)
    (self : PinBase) (connector : Option Nat) (media_type : Option AM_MEDIA_TYPE)
    (hreject : IsMediaTypeValid media_type = false) :
    ∃ r, PinBase.ReceiveConnection IsMediaTypeValid self connector media_type = some r ∧
      r.hr = VFW_E_TYPE_NOT_ACCEPTED ∧
      r.pin.connected_pin_ = self.connected_pin_ ∧
      r.pin.current_media_type_ = self.current_media_type_ ∧
      r.pin = self ∧ r.calls = [] := by
  refine ⟨{ hr := VFW_E_TYPE_NOT_ACCEPTED, pin := self, calls := [] }, ?_, rfl, rfl, rfl, rfl, rfl⟩
  simp [PinBase.ReceiveConnection, hreject]

/-- C2 at a pin connected to peer 7, with a predicate that rejects every format and
initiator 9. -/
theorem C2_ReceiveConnection_rejected_witness :
    ∃ r, PinBase.ReceiveConnection (fun _ => false)
        { PinBase.new 1 none with connected_pin_ := some 7 } (some 9)
        (some AM_MEDIA_TYPE.zero) = some r ∧
      r.hr = VFW_E_TYPE_NOT_ACCEPTED ∧
      r.pin.connected_pin_ = some 7 ∧
      r.pin.current_media_type_ = AM_MEDIA_TYPE.zero ∧
      r.pin = { PinBase.new 1 none with connected_pin_ := some 7 } ∧ r.calls = [] :=
  C2_ReceiveConnection_rejected (fun _ => false)
    { PinBase.new 1 none with connected_pin_ := some 7 } (some 9) (some AM_MEDIA_TYPE.zero) rfl

theorem Disconnect_not_connected (p : PinBase) (h : p.connected_pin_ = none) :
    PinBase.Disconnect p = { hr := S_FALSE, pin := p, calls := [] } := by
  unfold PinBase.Disconnect
  rw [h]

theorem Disconnect_iterate_not_connected (p : PinBase) (h : p.connected_pin_ = none)
    (k : Nat) : (fun q => (PinBase.Disconnect q).pin)^[k] p = p := by
  induction k with
  | zero => rfl
  | succ k ih =>
    rw [Function.iterate_succ_apply, Disconnect_not_connected p h]
    exact ih

/-- C6: after `Connect(peer, format)` with non-null arguments, the first `Disconnect`
returns `S_OK`; then `ConnectedTo` returns `VFW_E_NOT_CONNECTED` and stores a null pin,
`ConnectionMediaType` returns `VFW_E_NOT_CONNECTED`, and after any number of further
`Disconnect` calls the state is the same and another `Disconnect` returns `S_FALSE`,
makes no external call and leaves the state as it is. -/
theorem C6_Connect_Disconnect (peer : Nat → Nat → AM_MEDIA_TYPE → HRESULT) (self : PinBase)
    (receive_pin : Nat) (media_type : AM_MEDIA_TYPE) :
    (PinBase.Disconnect
        (PinBase.Connect peer self (some receive_pin) (some media_type)).pin).hr = S_OK ∧
    (PinBase.ConnectedTo (PinBase.Disconnect
        (PinBase.Connect peer self (some receive_pin) (some media_type)).pin).pin).hr
      = VFW_E_NOT_CONNECTED ∧
    (PinBase.ConnectedTo (PinBase.Disconnect
        (PinBase.Connect peer self (some receive_pin) (some media_type)).pin).pin).out
      = none ∧
    (PinBase.ConnectionMediaType (PinBase.Disconnect
        (PinBase.Connect peer self (some receive_pin) (some media_type)).pin).pin).hr
      = VFW_E_NOT_CONNECTED ∧
    ∀ k : Nat,
      (fun q => (PinBase.Disconnect q).pin)^[k] (PinBase.Disconnect
        (PinBase.Connect peer self (some receive_pin) (some media_type)).pin).pin
        = (PinBase.Disconnect
            (PinBase.Connect peer self (some receive_pin) (some media_type)).pin).pin ∧
      PinBase.Disconnect ((fun q => (PinBase.Disconnect q).pin)^[k] (PinBase.Disconnect
        (PinBase.Connect peer self (some receive_pin) (some media_type)).pin).pin)
        = { hr := S_FALSE
            pin := (PinBase.Disconnect
              (PinBase.Connect peer self (some receive_pin) (some media_type)).pin).pin
            calls := [] } := by
  have hnc : (PinBase.Disconnect
      (PinBase.Connect peer self (some receive_pin) (some media_type)).pin).pin.connected_pin_
      = none := by
    cases hc : self.connected_pin_ <;>
      simp [PinBase.Connect, PinBase.Disconnect, ComPtr.Attach, ComPtr.Reset, hc]
  refine ⟨?_, ?_, ?_, ?_, ?_⟩
  · cases hc : self.connected_pin_ <;>
      simp [PinBase.Connect, PinBase.Disconnect, ComPtr.Attach, ComPtr.Reset, hc]
  · unfold PinBase.ConnectedTo; rw [hnc]
  · unfold PinBase.ConnectedTo; rw [hnc]
  · unfold PinBase.ConnectionMediaType; rw [hnc]
  · intro k
    rw [Disconnect_iterate_not_connected _ hnc k]
    exact ⟨rfl, Disconnect_not_connected _ hnc⟩

/-- C9 as stated fails for `QueryId`: on a fresh pin it returns a status other than
`E_NOTIMPL`. -/
theorem C9_QueryId_counterexample :
    (PinBase.QueryId (PinBase.new 1 none) (some 0)).hr ≠ E_NOTIMPL := by
  decide

/-- C9, amended: for every pin state and every argument, `QueryInternalConnections` and
`NewSegment` return `E_NOTIMPL`, `QueryId` returns the failure status `E_OUTOFMEMORY`
(which is not `E_NOTIMPL`), and none of the three changes the pin state or calls out. -/
theorem C9_unsupported_operations (self : PinBase) (id pins no_pins : Option Nat)
    (start stop : Int) (rate : Nat) :
    PinBase.QueryInternalConnections self pins no_pins
      = { hr := E_NOTIMPL, pin := self, calls := [] } ∧
    PinBase.NewSegment self start stop rate = { hr := E_NOTIMPL, pin := self, calls := [] } ∧
    PinBase.QueryId self id = { hr := E_OUTOFMEMORY, pin := self, calls := [] } ∧
    FAILED E_OUTOFMEMORY = true ∧ E_OUTOFMEMORY ≠ E_NOTIMPL := by
  refine ⟨rfl, rfl, rfl, ?_, ?_⟩ <;> decide

/-- C10: `Connect(peer, format)` with non-null arguments stores `format` and `peer`
before the peer answers and returns exactly the peer's status, whatever it is, so that
`ConnectedTo` afterwards succeeds with that peer; with a null argument it returns
`E_POINTER`, changes nothing and calls nothing; and there is an input where `Connect`
fails while `ConnectedTo` afterwards succeeds and yields the peer. -/
theorem C10_Connect_commits_before_peer_answers
    (peer : Nat → Nat → AM_MEDIA_TYPE → HRESULT) (self : PinBase)
    (receive_pin : Nat) (media_type : AM_MEDIA_TYPE) :
    ((PinBase.Connect peer self (some receive_pin) (some media_type)).pin.connected_pin_
        = some receive_pin ∧
      (PinBase.Connect peer self (some receive_pin) (some media_type)).pin.current_media_type_
        = media_type ∧
      (PinBase.Connect peer self (some receive_pin) (some media_type)).hr
        = peer receive_pin self.self media_type ∧
      (PinBase.ConnectedTo
        (PinBase.Connect peer self (some receive_pin) (some media_type)).pin).hr = S_OK ∧
      (PinBase.ConnectedTo
        (PinBase.Connect peer self (some receive_pin) (some media_type)).pin).out
        = some receive_pin ∧
      (PinBase.ConnectionMediaType
        (PinBase.Connect peer self (some receive_pin) (some media_type)).pin).out
        = some media_type) ∧
    (∀ mt : Option AM_MEDIA_TYPE,
      PinBase.Connect peer self none mt = { hr := E_POINTER, pin := self, calls := [] }) ∧
    (∀ rp : Option Nat,
      PinBase.Connect peer self rp none = { hr := E_POINTER, pin := self, calls := [] }) ∧
    (∃ (rejecting : Nat → Nat → AM_MEDIA_TYPE → HRESULT) (p : PinBase) (rp : Nat)
        (mt : AM_MEDIA_TYPE),
      FAILED (PinBase.Connect rejecting p (some rp) (some mt)).hr = true ∧
      (PinBase.ConnectedTo (PinBase.Connect rejecting p (some rp) (some mt)).pin).hr = S_OK ∧
      (PinBase.ConnectedTo (PinBase.Connect rejecting p (some rp) (some mt)).pin).out
        = some rp) := by
  have hc : (PinBase.Connect peer self (some receive_pin) (some media_type)).pin.connected_pin_
      = some receive_pin := by
    cases h : self.connected_pin_ <;> simp [PinBase.Connect, ComPtr.Attach, h]
  refine ⟨⟨hc, rfl, rfl, ?_, ?_, ?_⟩, ?_, ?_, ?_⟩
  · unfold PinBase.ConnectedTo; rw [hc]
  · unfold PinBase.ConnectedTo; rw [hc]
  · unfold PinBase.ConnectionMediaType; rw [hc]; rfl
  · intro mt; rfl
  · intro rp; cases rp <;> rfl
  · exact ⟨fun _ _ _ => VFW_E_TYPE_NOT_ACCEPTED, PinBase.new 1 none, 2, AM_MEDIA_TYPE.zero,
      by decide, by decide, by decide⟩

/-! ## Enumeration -/

theorem NextLoop_spec (GetValidMediaType : Int → Option AM_MEDIA_TYPE) (alloc : Nat → Bool)
    (count : Nat) (fetchedPtr : Bool) (halloc : ∀ k, alloc k = true) :
    ∀ (fuel : Nat) (self : TypeEnumerator) (types : List AM_MEDIA_TYPE) (nalloc : Nat),
      self.WF → types.length ≤ count → count - types.length < fuel →
      ∃ (r : NextResult) (new : List AM_MEDIA_TYPE),
        TypeEnumerator.NextLoop GetValidMediaType alloc count fetchedPtr fuel self types nalloc
          = some r ∧
        r.types = types ++ new ∧ types.length + new.length ≤ count ∧
        (∀ j : Nat, j < new.length →
          GetValidMediaType (wrapInt32 (self.index_ + (j : Int))) = new[j]?) ∧
        (types.length + new.length < count →
          GetValidMediaType (wrapInt32 (self.index_ + (new.length : Int))) = none) ∧
        r.hr = (if types.length + new.length = count then S_OK else S_FALSE) ∧
        r.fetched = (if fetchedPtr then some (types.length + new.length) else none) ∧
        r.enumerator = { self with index_ := wrapInt32 (self.index_ + (new.length : Int)
          + (if types.length + new.length < count then 1 else 0)) } := by
  intro fuel
  induction fuel with
  | zero => intro self types nalloc _ _ h; omega
  | succ fuel ih =>
    intro self types nalloc hwf hle hfuel
    unfold TypeEnumerator.NextLoop
    by_cases hlt : types.length < count
    · simp only [hlt, if_true, halloc, Bool.true_eq_false, if_false]
      cases hg : GetValidMediaType self.index_ with
      | none =>
        refine ⟨_, [], rfl, ?_, ?_, ?_, ?_, ?_, ?_, ?_⟩
        · simp [TypeEnumerator.NextFinish]
        · simpa using hle
        · intro j hj; simp at hj
        · intro _
          simp only [List.length_nil, Nat.cast_zero, add_zero]
          rw [wrapInt32_of_range _ hwf.1 hwf.2]; exact hg
        · have : types.length ≠ count := by omega
          simp [TypeEnumerator.NextFinish, this]
        · simp [TypeEnumerator.NextFinish]
        · simp [TypeEnumerator.NextFinish, hlt]
      | some t =>
        have hwf1 : TypeEnumerator.WF { self with index_ := wrapInt32 (self.index_ + 1) } :=
          wrapInt32_range _
        obtain ⟨r, new, hr, htypes, hlen, hget, hstop, hhr, hf, hidx⟩ :=
          ih { self with index_ := wrapInt32 (self.index_ + 1) } (types ++ [t]) (nalloc + 2)
            hwf1 (by simp; omega) (by simp; omega)
        simp only [List.length_append, List.length_singleton] at hlen hstop hhr hf hidx
        refine ⟨r, t :: new, hr, ?_, ?_, ?_, ?_, ?_, ?_, ?_⟩
        · rw [htypes]; simp
        · simp only [List.length_cons]; omega
        · intro j hj
          cases j with
          | zero =>
            simp only [Nat.cast_zero, add_zero, List.getElem?_cons_zero]
            rw [wrapInt32_of_range _ hwf.1 hwf.2]; exact hg
          | succ j =>
            simp only [List.length_cons, Nat.add_lt_add_iff_right] at hj
            have := hget j hj
            simp only [wrapInt32_add_left] at this
            simp only [List.getElem?_cons_succ, Nat.cast_add, Nat.cast_one]
            rw [← this]; congr 2; omega
        · intro h
          simp only [List.length_cons] at h
          have := hstop (by omega)
          simp only [wrapInt32_add_left] at this
          simp only [List.length_cons, Nat.cast_add, Nat.cast_one]
          rw [← this]; congr 2; ring
        · rw [hhr]; simp only [List.length_cons]
          have e : types.length + 1 + new.length = types.length + (new.length + 1) := by omega
          rw [e]
        · rw [hf]; simp only [List.length_cons]
          have e : types.length + 1 + new.length = types.length + (new.length + 1) := by omega
          rw [e]
        · rw [hidx]; simp only [List.length_cons]
          have e : types.length + 1 + new.length = types.length + (new.length + 1) := by omega
          rw [e]
          have key : ∀ e : Int, wrapInt32 (wrapInt32 (self.index_ + 1) + (new.length : Int) + e)
              = wrapInt32 (self.index_ + ((new.length : Int) + 1) + e) := by
            intro e
            rw [add_assoc, wrapInt32_add_left]; congr 1; ring
          simp only [Nat.cast_add, Nat.cast_one, key]
    · have heq : types.length = count := by omega
      simp only [hlt, if_false]
      refine ⟨_, [], rfl, ?_, ?_, ?_, ?_, ?_, ?_, ?_⟩
      · simp [TypeEnumerator.NextFinish]
      · simpa using hle
      · intro j hj; simp at hj
      · intro h; simp at h; omega
      · simp [TypeEnumerator.NextFinish, heq]
      · simp [TypeEnumerator.NextFinish]
      · simp [TypeEnumerator.NextFinish, heq, wrapInt32_of_range _ hwf.1 hwf.2]

theorem Next_spec (GetValidMediaType : Int → Option AM_MEDIA_TYPE) (alloc : Nat → Bool)
    (self : TypeEnumerator) (count : Nat) (fetchedPtr : Bool)
    (halloc : ∀ k, alloc k = true) (hwf : self.WF) :
    ∃ r : NextResult,
      TypeEnumerator.Next GetValidMediaType alloc self count fetchedPtr = some r ∧
      r.types.length ≤ count ∧
      (∀ j : Nat, j < r.types.length →
        GetValidMediaType (wrapInt32 (self.index_ + (j : Int))) = r.types[j]?) ∧
      (r.types.length < count →
        GetValidMediaType (wrapInt32 (self.index_ + (r.types.length : Int))) = none) ∧
      r.hr = (if r.types.length = count then S_OK else S_FALSE) ∧
      r.fetched = (if fetchedPtr then some r.types.length else none) ∧
      r.enumerator = { self with index_ := wrapInt32 (self.index_ + (r.types.length : Int)
        + (if r.types.length < count then 1 else 0)) } := by
  obtain ⟨r, new, hr, htypes, hlen, hget, hstop, hhr, hf, hidx⟩ :=
    NextLoop_spec GetValidMediaType alloc count fetchedPtr halloc (count + 1) self [] 0 hwf
      (by simp) (by simp)
  simp only [List.nil_append, List.length_nil, Nat.zero_add] at htypes hlen hstop hhr hf hidx
  subst htypes
  exact ⟨r, hr, hlen, hget, hstop, hhr, hf, hidx⟩

theorem Next_exhausted (GetValidMediaType : Int → Option AM_MEDIA_TYPE) (alloc : Nat → Bool)
    (self : TypeEnumerator) (k : Nat) (halloc : ∀ k, alloc k = true) (hwf : self.WF)
    (hnone : GetValidMediaType self.index_ = none) (hk : 1 ≤ k) :
    ∃ r : NextResult,
      TypeEnumerator.Next GetValidMediaType alloc self k true = some r ∧
      r.fetched = some 0 ∧ r.types = [] ∧ r.hr = S_FALSE ∧
      r.enumerator = { self with index_ := wrapInt32 (self.index_ + 1) } := by
  obtain ⟨r, hr, _, hget, _, hhr, hf, hidx⟩ :=
    Next_spec GetValidMediaType alloc self k true halloc hwf
  have hnil : r.types = [] := by
    cases ht : r.types with
    | nil => rfl
    | cons t ts =>
      have h0 := hget 0 (by simp [ht])
      simp only [Nat.cast_zero, add_zero, wrapInt32_of_range _ hwf.1 hwf.2, hnone, ht,
        List.getElem?_cons_zero] at h0
      exact absurd h0 (by simp)
  refine ⟨r, hr, ?_, hnil, ?_, ?_⟩
  · rw [hf, hnil]; rfl
  · rw [hhr, hnil]
    have : ¬ (0 = k) := by omega
    simp [this]
  · rw [hidx, hnil]
    have : 0 < k := by omega
    simp [this]

theorem NextSeq_exhausted (GetValidMediaType : Int → Option AM_MEDIA_TYPE)
    (alloc : Nat → Bool) (halloc : ∀ k, alloc k = true) :
    ∀ (counts : List Nat) (self : TypeEnumerator) (t : Int),
      self.index_ = wrapInt32 t →
      (∀ j : Nat, j < counts.length → GetValidMediaType (wrapInt32 (t + (j : Int))) = none) →
      (∀ k ∈ counts, 1 ≤ k) →
      TypeEnumerator.NextSeq GetValidMediaType alloc self counts
        = some (List.replicate counts.length (some 0),
            { self with index_ := wrapInt32 (t + (counts.length : Int)) }) := by
  intro counts
  induction counts with
  | nil =>
    intro self t hidx _ _
    simp only [TypeEnumerator.NextSeq, List.length_nil, List.replicate_zero, Nat.cast_zero,
      add_zero, ← hidx]
  | cons k ks ih =>
    intro self t hidx hnone hks
    have hwf : self.WF := by
      unfold TypeEnumerator.WF; rw [hidx]; exact wrapInt32_range _
    have hnone0 : GetValidMediaType self.index_ = none := by
      have := hnone 0 (by simp)
      simpa [hidx] using this
    obtain ⟨r, hr, hf, _, _, he⟩ :=
      Next_exhausted GetValidMediaType alloc self k halloc hwf hnone0
        (hks k (List.mem_cons_self k ks))
    have hidx1 : r.enumerator.index_ = wrapInt32 (t + 1) := by
      rw [he]
      simp only [hidx, wrapInt32_add_left]
    have hseq := ih r.enumerator (t + 1) hidx1 (by
        intro j hj
        have := hnone (j + 1) (by simp; omega)
        rw [← this]; congr 2; push_cast; ring)
      (fun j hj => hks j (List.mem_cons_of_mem k hj))
    have hfin : ({ r.enumerator with index_ := wrapInt32 (t + 1 + (ks.length : Int)) }
        : TypeEnumerator)
        = { self with index_ := wrapInt32 (t + ((k :: ks).length : Int)) } := by
      rw [he]
      have : t + 1 + (ks.length : Int) = t + ((k :: ks).length : Int) := by
        simp only [List.length_cons]; push_cast; ring
      rw [this]
    rw [hfin] at hseq
    simp only [TypeEnumerator.NextSeq, hr, hseq, hf, List.length_cons, List.replicate_succ]

theorem formatsUpTo_isSome (n : Nat) (i : Int) :
    (formatsUpTo n i).isSome = true ↔ (0 ≤ i ∧ i < (n : Int)) := by
  unfold formatsUpTo
  split <;> simp_all

/-- C3, amended: on a fresh enumerator over a source whose `GetValidMediaType` succeeds
exactly at the (32-bit `int`) indices `0 .. n-1`, with no allocation failure,
`Next(count)` with `count > n` stores exactly `n` formats, those of indices `0 .. n-1` in
order, reports `fetched = n` and returns `S_FALSE`; the `Next(k)` that follows, `k ≥ 1`,
reports `fetched = 0`, and so does every one of the `Next` calls with counts `≥ 1` made
in a row after the first, as long as fewer than `2^32 - n` of them are made or the
source has no format at all; the index then stands at `n + 1` plus the number of
those calls, reduced to 32 bits. Any `Next` call returns `S_OK` exactly when
`fetched = count`. -/
theorem C3_Next_short_batch_then_empty (GetValidMediaType : Int → Option AM_MEDIA_TYPE)
    (alloc : Nat → Bool) (pin n count : Nat)
    (halloc : ∀ k, alloc k = true)
    (hsrc : ∀ i : Int, (GetValidMediaType i).isSome = true ↔ (0 ≤ i ∧ i < (n : Int)))
    (hint : n ≤ 2147483648) (hcount : n < count) :
    (∃ r : NextResult,
      TypeEnumerator.Next GetValidMediaType alloc (TypeEnumerator.new pin) count true = some r ∧
      r.types.length = n ∧
      (∀ j : Nat, j < n → r.types[j]? = GetValidMediaType (j : Int)) ∧
      r.fetched = some n ∧ r.hr = S_FALSE ∧
      (∀ k : Nat, 1 ≤ k →
        ∃ r2 : NextResult,
          TypeEnumerator.Next GetValidMediaType alloc r.enumerator k true = some r2 ∧
          r2.fetched = some 0 ∧ r2.types = []) ∧
      (∀ counts : List Nat, (∀ k ∈ counts, 1 ≤ k) →
        (n = 0 ∨ n + counts.length < 4294967296) →
        TypeEnumerator.NextSeq GetValidMediaType alloc r.enumerator counts
          = some (List.replicate counts.length (some 0),
              { r.enumerator with
                index_ := wrapInt32 ((n : Int) + 1 + (counts.length : Int)) }))) ∧
    (∀ (e : TypeEnumerator) (c : Nat), e.WF →
      ∃ r : NextResult, TypeEnumerator.Next GetValidMediaType alloc e c true = some r ∧
        (r.hr = S_OK ↔ r.fetched = some c)) := by
  constructor
  · have hwf : (TypeEnumerator.new pin).WF := by
      unfold TypeEnumerator.WF TypeEnumerator.new; constructor <;> norm_num
    obtain ⟨r, hr, hlen, hget, hstop, hhr, hf, hidx⟩ :=
      Next_spec GetValidMediaType alloc (TypeEnumerator.new pin) count true halloc hwf
    have h0 : (TypeEnumerator.new pin).index_ = 0 := rfl
    simp only [h0, zero_add] at hget hstop hidx
    -- no more than `n` formats are stored
    have hle : r.types.length ≤ n := by
      by_contra hgt
      have hn := hget n (by omega)
      have hs : (GetValidMediaType (wrapInt32 (n : Int))).isSome = true := by
        rw [hn, List.getElem?_eq_getElem (by omega)]; rfl
      have := (hsrc _).1 hs
      unfold wrapInt32 at this
      omega
    -- and no fewer
    have hge : n ≤ r.types.length := by
      by_contra hlt
      have hnone := hstop (by omega)
      have hw : wrapInt32 (r.types.length : Int) = (r.types.length : Int) :=
        wrapInt32_of_range _ (by omega) (by omega)
      rw [hw] at hnone
      have hs := (hsrc (r.types.length : Int)).2 ⟨by omega, by omega⟩
      rw [hnone] at hs
      exact absurd hs (by simp)
    have hn : r.types.length = n := le_antisymm hle hge
    have hne : ¬ (r.types.length = count) := by omega
    have hi : r.enumerator.index_ = wrapInt32 ((n : Int) + 1) := by
      rw [hidx]; simp only [hn, hcount, if_true]
    refine ⟨r, hr, hn, ?_, ?_, ?_, ?_, ?_⟩
    · intro j hj
      have hg := hget j (by omega)
      rw [wrapInt32_of_range _ (by omega) (by omega)] at hg
      exact hg.symm
    · rw [hf, hn]; rfl
    · rw [hhr]; simp [hne]
    · intro k hk
      have hwf2 : r.enumerator.WF := by
        rw [hidx]; exact wrapInt32_range _
      have hnone : GetValidMediaType r.enumerator.index_ = none := by
        cases hopt : GetValidMediaType r.enumerator.index_ with
        | none => rfl
        | some t =>
          have hs : (GetValidMediaType r.enumerator.index_).isSome = true := by
            rw [hopt]; rfl
          have := (hsrc _).1 hs
          rw [hi] at this
          unfold wrapInt32 at this
          omega
      obtain ⟨r2, hr2, hf2, ht2, _⟩ :=
        Next_exhausted GetValidMediaType alloc r.enumerator k halloc hwf2 hnone hk
      exact ⟨r2, hr2, hf2, ht2⟩
    · intro counts hks hbound
      refine NextSeq_exhausted GetValidMediaType alloc halloc counts r.enumerator
        ((n : Int) + 1) hi ?_ hks
      intro j hj
      cases hopt : GetValidMediaType (wrapInt32 ((n : Int) + 1 + (j : Int))) with
      | none => rfl
      | some ty =>
        have hs : (GetValidMediaType (wrapInt32 ((n : Int) + 1 + (j : Int)))).isSome = true := by
          rw [hopt]; rfl
        have := (hsrc _).1 hs
        unfold wrapInt32 at this
        omega
  · intro e c hwf
    obtain ⟨r, hr, _, _, _, hhr, hf, _⟩ :=
      Next_spec GetValidMediaType alloc e c true halloc hwf
    refine ⟨r, hr, ?_⟩
    rw [hhr, hf]
    by_cases h : r.types.length = c
    · simp [h]
    · simp [h, S_OK, S_FALSE]

/-- C3 as stated fails for a `Next` call late enough after the first: over a source with
exactly one format, `Next(2)` on a fresh enumerator fetches 1 with `S_FALSE` and leaves
the index at 2; each of the `2^32 - 2` calls `Next(1)` that follow fetches 0 and moves
the 32-bit index on by one, round to 0; the `Next(1)` after them fetches 1. -/
theorem C3_Next_counterexample :
    (∀ i : Int, (formatsUpTo 1 i).isSome = true ↔ (0 ≤ i ∧ i < ((1 : Nat) : Int))) ∧
    ∃ r : NextResult,
      TypeEnumerator.Next (formatsUpTo 1) (fun _ => true) (TypeEnumerator.new 0) 2 true
        = some r ∧
      r.fetched = some 1 ∧ r.hr = S_FALSE ∧
      r.enumerator = { pin_ := 0, index_ := 2, ref_count_ := 1 } ∧
      TypeEnumerator.NextSeq (formatsUpTo 1) (fun _ => true)
        { pin_ := 0, index_ := 2, ref_count_ := 1 } (List.replicate 4294967294 1)
        = some (List.replicate 4294967294 (some 0),
            { pin_ := 0, index_ := 0, ref_count_ := 1 }) ∧
      ∃ r2 : NextResult,
        TypeEnumerator.Next (formatsUpTo 1) (fun _ => true)
          { pin_ := 0, index_ := 0, ref_count_ := 1 } 1 true = some r2 ∧
        r2.fetched = some 1 ∧ r2.fetched ≠ some 0 := by
  refine ⟨formatsUpTo_isSome 1, _, rfl, by decide, by decide, by decide, ?_,
    _, rfl, by decide, by decide⟩
  have h := NextSeq_exhausted (formatsUpTo 1) (fun _ => true) (fun _ => rfl)
    (List.replicate 4294967294 1) { pin_ := 0, index_ := 2, ref_count_ := 1 } 2
    (by decide)
    (by
      intro j hj
      rw [List.length_replicate] at hj
      have hnot : ¬ (0 ≤ wrapInt32 (2 + (j : Int)) ∧ wrapInt32 (2 + (j : Int)) < ((1 : Nat) : Int)) := by
        unfold wrapInt32; omega
      unfold formatsUpTo
      rw [if_neg hnot])
    (by
      intro k hk
      rw [List.eq_of_mem_replicate hk])
  rw [List.length_replicate] at h
  have hw : wrapInt32 (2 + ((4294967294 : Nat) : Int)) = 0 := by decide
  rw [hw] at h
  exact h

/-- C3, amended, at a source with exactly two formats: `Next(3)` fetches both with
`S_FALSE`, and the `Next` calls after it fetch none. -/
theorem C3_Next_short_batch_then_empty_witness :
    ∃ r : NextResult,
      TypeEnumerator.Next (formatsUpTo 2) (fun _ => true) (TypeEnumerator.new 0) 3 true
        = some r ∧
      r.types.length = 2 ∧
      (∀ j : Nat, j < 2 → r.types[j]? = formatsUpTo 2 (j : Int)) ∧
      r.fetched = some 2 ∧ r.hr = S_FALSE ∧
      (∀ k : Nat, 1 ≤ k →
        ∃ r2 : NextResult,
          TypeEnumerator.Next (formatsUpTo 2) (fun _ => true) r.enumerator k true = some r2 ∧
          r2.fetched = some 0 ∧ r2.types = []) ∧
      (∀ counts : List Nat, (∀ k ∈ counts, 1 ≤ k) →
        (2 = 0 ∨ 2 + counts.length < 4294967296) →
        TypeEnumerator.NextSeq (formatsUpTo 2) (fun _ => true) r.enumerator counts
          = some (List.replicate counts.length (some 0),
              { r.enumerator with
                index_ := wrapInt32 (((2 : Nat) : Int) + 1 + (counts.length : Int)) })) :=
  (C3_Next_short_batch_then_empty (formatsUpTo 2) (fun _ => true) 0 2 3 (fun _ => rfl)
    (formatsUpTo_isSome 2) (by decide) (by decide)).1

/-- C4 as stated fails: on a fresh enumerator over a source with exactly two formats,
`Next(3)` reports `fetched = 2` and leaves the index at 3, not at 0 + 2. -/
theorem C4_Next_index_counterexample :
    ∃ r : NextResult,
      TypeEnumerator.Next (formatsUpTo 2) (fun _ => true) (TypeEnumerator.new 0) 3 true
        = some r ∧
      r.fetched = some 2 ∧ r.enumerator.index_ = 3 ∧
      r.enumerator.index_ ≠ (TypeEnumerator.new 0).index_ + 2 := by
  refine ⟨_, rfl, ?_, ?_, ?_⟩ <;> decide

/-- C4, amended: with no allocation failure `Next(count)` advances the index once per
`GetValidMediaType` query (32-bit wraparound): by `fetched` when the batch is filled
(`S_OK`), and by `fetched + 1` when the call stops early because the pin reports no
format at the index reached (`S_FALSE`), the failed query being counted too. -/
theorem C4_Next_index_per_query (GetValidMediaType : Int → Option AM_MEDIA_TYPE)
    (alloc : Nat → Bool) (self : TypeEnumerator) (count : Nat)
    (halloc : ∀ k, alloc k = true) (hwf : self.WF) :
    ∃ (r : NextResult) (fetched : Nat),
      TypeEnumerator.Next GetValidMediaType alloc self count true = some r ∧
      r.fetched = some fetched ∧ fetched = r.types.length ∧ fetched ≤ count ∧
      (fetched = count →
        r.hr = S_OK ∧ r.enumerator.index_ = wrapInt32 (self.index_ + (fetched : Int))) ∧
      (fetched < count →
        r.hr = S_FALSE ∧
        GetValidMediaType (wrapInt32 (self.index_ + (fetched : Int))) = none ∧
        r.enumerator.index_ = wrapInt32 (self.index_ + (fetched : Int) + 1)) := by
  obtain ⟨r, hr, hlen, _, hstop, hhr, hf, hidx⟩ :=
    Next_spec GetValidMediaType alloc self count true halloc hwf
  refine ⟨r, r.types.length, hr, ?_, rfl, hlen, ?_, ?_⟩
  · rw [hf]; rfl
  · intro h
    have hn : ¬ (r.types.length < count) := by omega
    rw [hhr, hidx]
    simp [h, hn]
  · intro h
    have hn : ¬ (r.types.length = count) := by omega
    rw [hhr, hidx]
    exact ⟨by simp [hn], hstop h, by simp [h]⟩

/-- C4, amended, at a fresh enumerator over a source with exactly two formats and
`count = 3`. -/
theorem C4_Next_index_per_query_witness :
    ∃ (r : NextResult) (fetched : Nat),
      TypeEnumerator.Next (formatsUpTo 2) (fun _ => true) (TypeEnumerator.new 0) 3 true
        = some r ∧
      r.fetched = some fetched ∧ fetched = r.types.length ∧ fetched ≤ 3 ∧
      (fetched = 3 →
        r.hr = S_OK ∧
        r.enumerator.index_ = wrapInt32 ((TypeEnumerator.new 0).index_ + (fetched : Int))) ∧
      (fetched < 3 →
        r.hr = S_FALSE ∧
        formatsUpTo 2 (wrapInt32 ((TypeEnumerator.new 0).index_ + (fetched : Int))) = none ∧
        r.enumerator.index_
          = wrapInt32 ((TypeEnumerator.new 0).index_ + (fetched : Int) + 1)) :=
  C4_Next_index_per_query (formatsUpTo 2) (fun _ => true) (TypeEnumerator.new 0) 3
    (fun _ => rfl) (by unfold TypeEnumerator.WF TypeEnumerator.new; constructor <;> decide)

theorem ReceiveMultipleLoop_spec {σ Sample : Type} (Receive : σ → Sample → HRESULT × σ) :
    ∀ (rest pre : List Sample) (fuel : Nat) (s : σ) (calls : List (Sample × HRESULT)),
      rest.length < fuel → pre.length + rest.length < 2147483648 →
      ∃ (r : ReceiveMultipleResult σ Sample) (new : List (Sample × HRESULT)),
        PinBase.ReceiveMultipleLoop Receive (pre ++ rest) fuel (rest.length : Int)
          (pre.length : Int) S_OK s calls = some r ∧
        r.calls = calls ++ new ∧
        new.map Prod.fst = rest.take new.length ∧
        replayReceive Receive s (new.map Prod.fst) = (new.map Prod.snd, r.state) ∧
        ((new.length = rest.length ∧ r.processed = ((pre.length + rest.length : Nat) : Int) ∧
            (∀ c ∈ new, c.2 = S_OK) ∧ r.hr = S_OK) ∨
          (∃ k : Nat, k < rest.length ∧ new.length = k + 1 ∧
            r.processed = ((pre.length + k : Nat) : Int) ∧
            (∀ c ∈ new.take k, c.2 = S_OK) ∧
            (new.map Prod.snd)[k]? = some r.hr ∧ r.hr ≠ S_OK)) := by
  intro rest
  induction rest with
  | nil =>
    intro pre fuel s calls hfuel _
    obtain ⟨f, rfl⟩ : ∃ f, fuel = f + 1 := ⟨fuel - 1, by simp at hfuel; omega⟩
    refine ⟨{ hr := S_OK, processed := (pre.length : Int), state := s, calls := calls }, [],
      ?_, by simp, by simp, rfl, Or.inl ⟨rfl, by simp, by simp, rfl⟩⟩
    simp [PinBase.ReceiveMultipleLoop]
  | cons x xs ih =>
    intro pre fuel s calls hfuel hlen
    simp only [List.length_cons] at hfuel hlen
    obtain ⟨f, rfl⟩ : ∃ f, fuel = f + 1 := ⟨fuel - 1, by omega⟩
    have hcnt : ((x :: xs).length : Int) ≠ 0 := by simp; omega
    have hneg : ¬ ((pre.length : Int) < 0) := by omega
    have hget : (pre ++ x :: xs)[(pre.length : Int).toNat]? = some x := by
      rw [Int.toNat_ofNat, List.getElem?_append_right (le_refl _)]; simp
    have hdec : wrapInt32 (((x :: xs).length : Int) - 1) = (xs.length : Int) := by
      simp only [List.length_cons, Nat.cast_add, Nat.cast_one, add_sub_cancel_right]
      exact wrapInt32_of_range _ (by omega) (by omega)
    have hinc : wrapInt32 ((pre.length : Int) + 1) = ((pre ++ [x]).length : Int) := by
      rw [wrapInt32_of_range _ (by omega) (by omega)]; simp
    have happ : pre ++ x :: xs = (pre ++ [x]) ++ xs := by simp
    rw [PinBase.ReceiveMultipleLoop]
    simp only [hcnt, ne_eq, not_false_eq_true, if_true, hneg, if_false, hget, hdec, hinc]
    by_cases hok : (Receive s x).1 = S_OK
    · simp only [hok, not_true_eq_false, if_false]
      obtain ⟨r, new, hr, hcalls, hfst, hreplay, hcase⟩ :=
        ih (pre ++ [x]) f (Receive s x).2 (calls ++ [(x, S_OK)]) (by omega)
          (by simp; omega)
      rw [happ]
      refine ⟨r, (x, S_OK) :: new, hr, ?_, ?_, ?_, ?_⟩
      · rw [hcalls]; simp
      · simp [hfst]
      · simp only [List.map_cons, replayReceive, hreplay, hok]
      · rcases hcase with ⟨h1, h2, h3, h4⟩ | ⟨k, h1, h2, h3, h4, h5, h6⟩
        · left
          refine ⟨by simp [h1], ?_, ?_, h4⟩
          · rw [h2]; simp; omega
          · intro c hc
            rcases List.mem_cons.1 hc with rfl | hc
            · rfl
            · exact h3 c hc
        · right
          refine ⟨k + 1, by simp; omega, by simp [h2], ?_, ?_, ?_, h6⟩
          · rw [h3]; simp; omega
          · intro c hc
            rw [List.take_succ_cons] at hc
            rcases List.mem_cons.1 hc with rfl | hc
            · rfl
            · exact h4 c hc
          · simpa using h5
    · simp only [hok, not_false_eq_true, if_true]
      refine ⟨_, [(x, (Receive s x).1)], rfl, rfl, by simp, ?_, Or.inr ⟨0, ?_⟩⟩
      · simp [replayReceive]
      · refine ⟨by simp, by simp, by simp, by simp, by simp, hok⟩

theorem ReceiveMultiple_spec {σ Sample : Type} (Receive : σ → Sample → HRESULT × σ) (s : σ)
    (samples : List Sample) (hlen : samples.length < 2147483648) :
    ∃ r : ReceiveMultipleResult σ Sample,
      PinBase.ReceiveMultiple Receive s samples (samples.length : Int) = some r ∧
      r.calls.map Prod.fst = samples.take r.calls.length ∧
      replayReceive Receive s (r.calls.map Prod.fst) = (r.calls.map Prod.snd, r.state) ∧
      ((r.calls.length = samples.length ∧ r.processed = (samples.length : Int) ∧
          (∀ c ∈ r.calls, c.2 = S_OK) ∧ r.hr = S_OK) ∨
        (∃ k : Nat, k < samples.length ∧ r.calls.length = k + 1 ∧ r.processed = (k : Int) ∧
          (∀ c ∈ r.calls.take k, c.2 = S_OK) ∧
          (r.calls.map Prod.snd)[k]? = some r.hr ∧ r.hr ≠ S_OK)) := by
  have hfuel : samples.length < toULONG (samples.length : Int) + 1 := by
    unfold toULONG; omega
  obtain ⟨r, new, hr, hcalls, hfst, hreplay, hcase⟩ :=
    ReceiveMultipleLoop_spec Receive samples [] _ s [] hfuel (by simpa using hlen)
  simp only [List.nil_append, List.length_nil, Nat.cast_zero, Nat.zero_add] at hr hcalls hcase
  subst hcalls
  exact ⟨r, hr, hfst, hreplay, hcase⟩

/-- C1: for a sample array of length `sample_count ≥ 0` (a `long`) and any subclass
`Receive`, `ReceiveMultiple` returns; the `Receive` calls it makes are on
`samples[0], samples[1], ...` in order, with the statuses `Receive` yields when run on
them in turn; the first `processed` calls return `S_OK`; if `processed = sample_count`
every sample was passed and the result is `S_OK`; otherwise the call on
`samples[processed]` returned a status other than `S_OK` and is the last call made. -/
theorem C1_ReceiveMultiple_in_order {σ Sample : Type} (Receive : σ → Sample → HRESULT × σ)
    (s : σ) (samples : List Sample) (hlen : samples.length < 2147483648) :
    ∃ r : ReceiveMultipleResult σ Sample,
      PinBase.ReceiveMultiple Receive s samples (samples.length : Int) = some r ∧
      r.calls.map Prod.fst = samples.take r.calls.length ∧
      replayReceive Receive s (r.calls.map Prod.fst) = (r.calls.map Prod.snd, r.state) ∧
      0 ≤ r.processed ∧ r.processed ≤ (samples.length : Int) ∧
      (∀ c ∈ r.calls.take r.processed.toNat, c.2 = S_OK) ∧
      (r.processed = (samples.length : Int) →
        r.calls.length = samples.length ∧ r.hr = S_OK) ∧
      (r.processed < (samples.length : Int) →
        r.calls.length = r.processed.toNat + 1 ∧
        ∃ c, r.calls[r.processed.toNat]? = some c ∧ c.2 ≠ S_OK) := by
  obtain ⟨r, hr, hfst, hreplay, hcase⟩ := ReceiveMultiple_spec Receive s samples hlen
  refine ⟨r, hr, hfst, hreplay, ?_⟩
  rcases hcase with ⟨h1, h2, h3, h4⟩ | ⟨k, h1, h2, h3, h4, h5, h6⟩
  · refine ⟨by omega, by omega, ?_, fun _ => ⟨h1, h4⟩, fun h => by omega⟩
    intro c hc
    exact h3 c (List.mem_of_mem_take hc)
  · have hk : r.processed.toNat = k := by omega
    refine ⟨by omega, by omega, ?_, fun h => by omega, fun _ => ⟨by omega, ?_⟩⟩
    · rw [hk]; exact h4
    · rw [hk]
      rw [List.getElem?_map] at h5
      cases hc : r.calls[k]? with
      | none => rw [hc] at h5; simp at h5
      | some c =>
        rw [hc] at h5
        simp only [Option.map_some', Option.some.injEq] at h5
        exact ⟨c, rfl, by rw [h5]; exact h6⟩

/-- C1 at the samples `[1, 2, 3]` with a `Receive` that answers `S_FALSE` on sample 2
and `S_OK` otherwise. -/
theorem C1_ReceiveMultiple_in_order_witness :
    ∃ r : ReceiveMultipleResult Unit Nat,
      PinBase.ReceiveMultiple (fun (s : Unit) (x : Nat) => (if x = 2 then S_FALSE else S_OK, s))
        () [1, 2, 3] (([1, 2, 3] : List Nat).length : Int) = some r ∧
      r.calls.map Prod.fst = ([1, 2, 3] : List Nat).take r.calls.length ∧
      replayReceive (fun (s : Unit) (x : Nat) => (if x = 2 then S_FALSE else S_OK, s)) ()
        (r.calls.map Prod.fst) = (r.calls.map Prod.snd, r.state) ∧
      0 ≤ r.processed ∧ r.processed ≤ (([1, 2, 3] : List Nat).length : Int) ∧
      (∀ c ∈ r.calls.take r.processed.toNat, c.2 = S_OK) ∧
      (r.processed = (([1, 2, 3] : List Nat).length : Int) →
        r.calls.length = ([1, 2, 3] : List Nat).length ∧ r.hr = S_OK) ∧
      (r.processed < (([1, 2, 3] : List Nat).length : Int) →
        r.calls.length = r.processed.toNat + 1 ∧
        ∃ c, r.calls[r.processed.toNat]? = some c ∧ c.2 ≠ S_OK) :=
  C1_ReceiveMultiple_in_order (fun (s : Unit) (x : Nat) => (if x = 2 then S_FALSE else S_OK, s))
    () [1, 2, 3] (by decide)

/-- The example of the batch contract: on `[1, 2, 3]` with `Receive` answering `S_FALSE`
on sample 2, one sample is processed and `Receive` is not called on sample 3. -/
theorem ReceiveMultiple_stops_at_second :
    ∃ r : ReceiveMultipleResult Unit Nat,
      PinBase.ReceiveMultiple (fun (s : Unit) (x : Nat) => (if x = 2 then S_FALSE else S_OK, s))
        () [1, 2, 3] 3 = some r ∧
      r.processed = 1 ∧ r.hr = S_FALSE ∧ r.calls = [(1, S_OK), (2, S_FALSE)] :=
  ⟨_, rfl, rfl, rfl, rfl⟩

/-- C8 as stated fails: with a `Receive` that fails with `E_FAIL`, `ReceiveMultiple` on
one sample reports `processed = 0 < 1` and returns the failure status `E_FAIL`. -/
theorem C8_short_batch_counterexample :
    ∃ r : ReceiveMultipleResult Unit Nat,
      PinBase.ReceiveMultiple (fun (s : Unit) (_ : Nat) => (E_FAIL, s)) () [5] 1 = some r ∧
      r.processed < 1 ∧ r.hr = E_FAIL ∧ FAILED r.hr = true ∧ SUCCEEDED r.hr = false := by
  refine ⟨_, rfl, ?_, rfl, ?_, ?_⟩ <;> decide

/-- C8, amended: whenever `ReceiveMultiple` reports `processed < sample_count`, the
status it returns is not `S_OK` and is exactly the status `Receive` returned for
`samples[processed]`, the last of the statuses obtained by running `Receive` over
`samples[0 .. processed]`; so it is a non-failure status exactly when that `Receive`
status is one. When `processed = sample_count` the status is `S_OK`. -/
theorem C8_short_batch_status {σ Sample : Type} (Receive : σ → Sample → HRESULT × σ)
    (s : σ) (samples : List Sample) (hlen : samples.length < 2147483648) :
    ∃ r : ReceiveMultipleResult σ Sample,
      PinBase.ReceiveMultiple Receive s samples (samples.length : Int) = some r ∧
      (r.processed < (samples.length : Int) →
        r.hr ≠ S_OK ∧
        (replayReceive Receive s (samples.take (r.processed.toNat + 1))).1.getLast?
          = some r.hr ∧
        (SUCCEEDED r.hr = true ↔
          ∃ hr0, (replayReceive Receive s (samples.take (r.processed.toNat + 1))).1.getLast?
            = some hr0 ∧ 0 ≤ hr0)) ∧
      (r.processed = (samples.length : Int) → r.hr = S_OK) := by
  obtain ⟨r, hr, hfst, hreplay, hcase⟩ := ReceiveMultiple_spec Receive s samples hlen
  refine ⟨r, hr, ?_⟩
  rcases hcase with ⟨h1, h2, h3, h4⟩ | ⟨k, h1, h2, h3, h4, h5, h6⟩
  · exact ⟨fun h => by omega, fun _ => h4⟩
  · have hk : r.processed.toNat = k := by omega
    have hlast : (replayReceive Receive s (samples.take (r.processed.toNat + 1))).1.getLast?
        = some r.hr := by
      rw [hk, ← h2, ← hfst, hreplay]
      rw [List.getLast?_eq_getElem?]
      simp only [List.length_map, h2, Nat.add_sub_cancel]
      exact h5
    refine ⟨fun _ => ⟨h6, hlast, ?_⟩, fun h => by omega⟩
    rw [hlast]
    unfold SUCCEEDED
    simp

/-- C8, amended, at the samples `[1, 2, 3]` with a `Receive` that answers `S_FALSE` on
sample 2 and `S_OK` otherwise. -/
theorem C8_short_batch_status_witness :
    ∃ r : ReceiveMultipleResult Unit Nat,
      PinBase.ReceiveMultiple (fun (s : Unit) (x : Nat) => (if x = 2 then S_FALSE else S_OK, s))
        () [1, 2, 3] (([1, 2, 3] : List Nat).length : Int) = some r ∧
      (r.processed < (([1, 2, 3] : List Nat).length : Int) →
        r.hr ≠ S_OK ∧
        (replayReceive (fun (s : Unit) (x : Nat) => (if x = 2 then S_FALSE else S_OK, s)) ()
          (([1, 2, 3] : List Nat).take (r.processed.toNat + 1))).1.getLast? = some r.hr ∧
        (SUCCEEDED r.hr = true ↔
          ∃ hr0, (replayReceive
            (fun (s : Unit) (x : Nat) => (if x = 2 then S_FALSE else S_OK, s)) ()
            (([1, 2, 3] : List Nat).take (r.processed.toNat + 1))).1.getLast?
            = some hr0 ∧ 0 ≤ hr0)) ∧
      (r.processed = (([1, 2, 3] : List Nat).length : Int) → r.hr = S_OK) :=
  C8_short_batch_status (fun (s : Unit) (x : Nat) => (if x = 2 then S_FALSE else S_OK, s))
    () [1, 2, 3] (by decide)

/-! ## Reference counting -/

